import Mathlib

/-!
Shallow embedding of the XRF interpreter (src/xrf.c, the first of the two
revisions in the file, which is the more defensive one: it keeps an explicit
stack size counter, guards `randomize_stack` against an empty stack and reads
characters into an `int`).  Stack values model C `unsigned int` as `Nat` with
an explicit modulus where the C code can overflow.  Input, output and the
`rand()` stream are explicit lists; `getchar()` at end of input pushes 0, as
the C code does.
-/

/-- Modulus for C `unsigned int` arithmetic (32-bit). -/
def UINT_MOD : Nat := 2 ^ 32

/-- State threaded through a chunk execution: the value stack (top at the
head), the remaining input bytes, the emitted output bytes, and the stream of
pseudo-random numbers consumed by `randomize_stack`. -/
structure VMState where
  stack : List Nat
  inp : List Nat
  out : List Nat
  rng : List Nat
deriving DecidableEq

/-- Result of dispatching one opcode inside the `switch` of `execute_chunk`:
`cont` falls through to the loop's `i++`; `skip` is the extra `i++` of opcodes
`8`/`C` followed by the loop's `i++`; `done` is `return` (opcode `A`); `halt`
is `exit(0)` (opcode `B`); `err` is a fatal `exit(1)`. -/
inductive StepOut where
  | cont (s : VMState)
  | skip (s : VMState)
  | done (s : VMState)
  | halt (s : VMState)
  | err (msg : String) (s : VMState)
deriving DecidableEq

/-- Function `send_top_to_bottom` of xrf.c: fatal error on an empty stack,
early return (no-op) on a one-element stack, otherwise the top node becomes
the new bottom, the rest keeping their relative order. -/
def send_top_to_bottom : List Nat → Option (List Nat)
  | [] => none
  | [v] => some [v]
  | a :: b :: st => some ((b :: st) ++ [a])

/-- One swap of the Fisher–Yates loop body of `randomize_stack`:
`temp = vals[j]; vals[j] = vals[i]; vals[i] = temp`. -/
def listSwap (l : List Nat) (i j : Nat) : List Nat :=
  (l.set j (l.getD i 0)).set i (l.getD j 0)

/-- Shuffling loop of `randomize_stack`: for C index `i` from `size-1` down to
`1`, swap `vals[i]` with `vals[rand() % (i+1)]`.  The Lean argument `n` is the
current C index; each iteration consumes one random number. -/
def fisherYates : Nat → List Nat → List Nat → List Nat × List Nat
  | 0, vals, rng => (vals, rng)
  | n + 1, vals, rng => fisherYates n (listSwap vals (n + 1) (rng.headD 0 % (n + 2))) rng.tail

/-- Function `randomize_stack` of xrf.c: return immediately on an empty stack,
otherwise copy the node values into an array (index 0 = top), shuffle the
array, and write the values back into the nodes in the original order. -/
def randomize_stack (stack rng : List Nat) : List Nat × List Nat :=
  if stack.length = 0 then (stack, rng)
  else fisherYates (stack.length - 1) stack rng

/-- One case of the `switch` statement of `execute_chunk` in xrf.c, dispatching
on the opcode character at the current slot.  Characters with no `case` label
(of the loadable characters, only `F`) fall through with nothing changed. -/
def dispatch (c : Char) (visited : Bool) (s : VMState) : StepOut :=
  match c, s with
  | '0', ⟨stk, inp, out, rng⟩ =>
    match inp with
    | [] => .cont ⟨0 :: stk, [], out, rng⟩
    | b :: binp => .cont ⟨b :: stk, binp, out, rng⟩
  | '1', ⟨stk, inp, out, rng⟩ =>
    match stk with
    | [] => .err "Error! Cannot output nonexistent value!" ⟨[], inp, out, rng⟩
    | v :: st => .cont ⟨st, inp, out ++ [v % 256], rng⟩
  | '2', ⟨stk, inp, out, rng⟩ =>
    match stk with
    | [] => .err "Error! Cannot pop an empty stack!" ⟨[], inp, out, rng⟩
    | _ :: st => .cont ⟨st, inp, out, rng⟩
  | '3', ⟨stk, inp, out, rng⟩ =>
    match stk with
    | [] => .err "Error! Nothing on the stack to be duplicated!" ⟨[], inp, out, rng⟩
    | v :: st => .cont ⟨v :: v :: st, inp, out, rng⟩
  | '4', ⟨stk, inp, out, rng⟩ =>
    match stk with
    | [] => .err "Error! Cannot swap the top two elements on an empty stack" ⟨[], inp, out, rng⟩
    | [v] =>
      .err "Error! Cannot swap the top two elements on a one-element stack" ⟨[v], inp, out, rng⟩
    | a :: b :: st => .cont ⟨b :: a :: st, inp, out, rng⟩
  | '5', ⟨stk, inp, out, rng⟩ =>
    match stk with
    | [] => .err "Error! Cannot increment nonexistent value!" ⟨[], inp, out, rng⟩
    | v :: st => .cont ⟨((v + 1) % UINT_MOD) :: st, inp, out, rng⟩
  | '6', ⟨stk, inp, out, rng⟩ =>
    match stk with
    | [] => .err "Error! Cannot decrement nonexistent value!" ⟨[], inp, out, rng⟩
    | v :: st => .cont ⟨(if v > 0 then v - 1 else v) :: st, inp, out, rng⟩
  | '7', ⟨stk, inp, out, rng⟩ =>
    match stk with
    | [] => .err "Error! Cannot add the top values of an empty stack." ⟨[], inp, out, rng⟩
    | [v] => .err "Error! Cannot add the top values of a one-value stack." ⟨[v], inp, out, rng⟩
    | a :: b :: st => .cont ⟨((b + a) % UINT_MOD) :: st, inp, out, rng⟩
  | '8', s => if visited then .cont s else .skip s
  | '9', ⟨stk, inp, out, rng⟩ =>
    match send_top_to_bottom stk with
    | none =>
      .err "Error! Cannot send nonexistent value to the bottom of the stack!" ⟨stk, inp, out, rng⟩
    | some st => .cont ⟨st, inp, out, rng⟩
  | 'A', s => .done s
  | 'B', s => .halt s
  | 'C', s => if visited then .skip s else .cont s
  | 'D', ⟨stk, inp, out, rng⟩ =>
    .cont ⟨(randomize_stack stk rng).1, inp, out, (randomize_stack stk rng).2⟩
  | 'E', ⟨stk, inp, out, rng⟩ =>
    match stk with
    | [] =>
      .err "Error! Cannot get the difference of the top two values of an empty stack!"
        ⟨[], inp, out, rng⟩
    | [v] =>
      .err "Error! Cannot get the difference of the top two values of a one-value stack!"
        ⟨[v], inp, out, rng⟩
    | a :: b :: st => .cont ⟨(if a ≤ b then b - a else a - b) :: st, inp, out, rng⟩
  | _, s => .cont s

/-- Result of `execute_chunk`: normal completion (all 5 slots done, or opcode
`A`), process halt (opcode `B`, `exit(0)`), or a fatal error (`exit(1)`). -/
inductive ChunkResult where
  | ok (s : VMState)
  | halt (s : VMState)
  | err (msg : String) (s : VMState)
deriving DecidableEq

/-- Loop `for (i = 0; i < COMMANDS_PER_CHUNK; i++)` of `execute_chunk`,
dispatching the slot at index `i` while `i < 5`; the extra argument
`fuel = 5 - i` makes the recursion structural.  A `skip` result advances `i`
by 2 in total, ending the loop at once when it happens at the last slot. -/
def execFrom (chunk : List Char) (visited : Bool) : Nat → Nat → VMState → ChunkResult
  | 0, _, s => .ok s
  | fuel + 1, i, s =>
    match dispatch (chunk.getD i ' ') visited s with
    | .cont s' => execFrom chunk visited fuel (i + 1) s'
    | .skip s' =>
      match fuel with
      | 0 => .ok s'
      | f + 1 => execFrom chunk visited f (i + 2) s'
    | .done s' => .ok s'
    | .halt s' => .halt s'
    | .err m s' => .err m s'

/-- Function `execute_chunk` of xrf.c: run the 5 slots of a chunk from slot 0
with the chunk's visited flag captured before dispatch begins. -/
def execute_chunk (chunk : List Char) (visited : Bool) (s : VMState) : ChunkResult :=
  execFrom chunk visited 5 0 s

/-- Predicate matching the characters the C locale `isspace` accepts. -/
def isSpaceC (c : Char) : Bool :=
  c = ' ' || c = '\t' || c = '\n' || c = '\r' || c = '\x0b' || c = '\x0c'

/-- Predicate matching the valid XRF opcode characters `0`-`9`, `A`-`F`. -/
def isXrfChar (c : Char) : Bool :=
  ('0' ≤ c && c ≤ '9') || ('A' ≤ c && c ≤ 'F')

/-- Character-reading loop of `read_xrf_file`: skip whitespace, collect valid
opcode characters, fail naming the first invalid character. -/
def readChars : List Char → List Char → Except String (List Char)
  | [], acc => .ok acc.reverse
  | c :: rest, acc =>
    if isSpaceC c then readChars rest acc
    else if isXrfChar c then readChars rest (c :: acc)
    else .error ("Error! Unknown character " ++ toString c ++ " encountered!")

/-- Function `read_xrf_file` of xrf.c: returns the command buffer together with
the parallel visited array (one `false` per chunk of 5 commands), or the fatal
load error.  The length check is `cur_cmd % COMMANDS_PER_CHUNK != 0`. -/
def read_xrf_file (input : List Char) : Except String (List Char × List Bool) :=
  match readChars input [] with
  | .error e => .error e
  | .ok cmds =>
    if cmds.length % 5 ≠ 0 then .error "Error! Inadequate code length!"
    else .ok (cmds, List.replicate (cmds.length / 5) false)

/-- State of the outer control loop of `execute_code`: the VM state plus the
mutable visited array and the current chunk index. -/
structure MachineState where
  stack : List Nat
  inp : List Nat
  out : List Nat
  rng : List Nat
  visited : List Bool
  curChunk : Nat
deriving DecidableEq

/-- Result of one iteration of the `execute_code` loop: still running at some
machine state, halted with success (`exit(0)`), or failed (`exit(1)`). -/
inductive ExecResult where
  | running (m : MachineState)
  | halted (m : MachineState)
  | failed (msg : String) (m : MachineState)
deriving DecidableEq

/-- Chunk of 5 commands at index `k`: `code.commands + k * COMMANDS_PER_CHUNK`. -/
def getChunk (commands : List Char) (k : Nat) : List Char :=
  (commands.drop (k * 5)).take 5

/-- One iteration of the `while (true)` loop of `execute_code`: run the current
chunk with its captured visited flag; on normal completion mark the chunk
visited, then fail if the stack is empty, fail naming the offending index if
the top value is not below the chunk count, and otherwise move to the chunk
the top value names.  A `halt` or `err` from the chunk exits at once, before
the visited flag is written. -/
def execute_code_step (commands : List Char) (m : MachineState) : ExecResult :=
  match execute_chunk (getChunk commands m.curChunk) (m.visited.getD m.curChunk false)
      ⟨m.stack, m.inp, m.out, m.rng⟩ with
  | .halt s => .halted ⟨s.stack, s.inp, s.out, s.rng, m.visited, m.curChunk⟩
  | .err msg s => .failed msg ⟨s.stack, s.inp, s.out, s.rng, m.visited, m.curChunk⟩
  | .ok s =>
    match s.stack with
    | [] =>
      .failed "Error! Cannot have an empty stack upon reaching the end of a chunk!"
        ⟨[], s.inp, s.out, s.rng, m.visited.set m.curChunk true, m.curChunk⟩
    | v :: rest =>
      if v ≥ commands.length / 5 then
        .failed ("Error! Cannot go to nonexistent chunk " ++ toString v ++ "!")
          ⟨v :: rest, s.inp, s.out, s.rng, m.visited.set m.curChunk true, m.curChunk⟩
      else
        .running ⟨v :: rest, s.inp, s.out, s.rng, m.visited.set m.curChunk true, v⟩

/-- Iteration of `execute_code_step` while the machine keeps running. -/
def stepN (commands : List Char) : Nat → ExecResult → ExecResult
  | 0, r => r
  | n + 1, .running m => stepN commands n (execute_code_step commands m)
  | _ + 1, .halted m => .halted m
  | _ + 1, .failed msg m => .failed msg m

/-- Initial machine of `execute_code`: one stack node of value 0, current chunk
0, all chunks unvisited. -/
def initMachine (numChunks : Nat) (inp rng : List Nat) : MachineState :=
  ⟨[0], inp, [], rng, List.replicate numChunks false, 0⟩

/-- Repeated application of `send_top_to_bottom` through `Option.bind`, used to
state the n-fold rotation property of opcode `9`. -/
def rotIter : Nat → List Nat → Option (List Nat)
  | 0, l => some l
  | n + 1, l => (send_top_to_bottom l).bind (rotIter n)

/-- Replacing the element at an in-range position `m` while consing the old
element on top permutes consing the new element on the original list. -/
theorem getD_cons_set_perm (x : Nat) :
    ∀ (xs : List Nat) (m : Nat), m < xs.length →
      (xs.getD m 0 :: xs.set m x).Perm (x :: xs) := by
  intro xs
  induction xs with
  | nil => intro m hm; simp at hm
  | cons y ys ih =>
    intro m hm
    cases m with
    | zero => simpa using List.Perm.swap x y ys
    | succ k =>
      have hk : k < ys.length := by simpa using hm
      have h1 : (ys.getD k 0 :: y :: ys.set k x).Perm (y :: ys.getD k 0 :: ys.set k x) :=
        List.Perm.swap _ _ _
      have h2 : (y :: ys.getD k 0 :: ys.set k x).Perm (y :: x :: ys) := (ih k hk).cons y
      have h3 : (y :: x :: ys).Perm (x :: y :: ys) := List.Perm.swap _ _ _
      simpa using (h1.trans h2).trans h3

/-- A Fisher–Yates swap of two in-range positions permutes the list. -/
theorem listSwap_perm :
    ∀ (l : List Nat) (i j : Nat), i < l.length → j < l.length →
      (listSwap l i j).Perm l := by
  intro l
  induction l with
  | nil => intro i j hi _; simp at hi
  | cons x xs ih =>
    intro i j hi hj
    cases i with
    | zero =>
      cases j with
      | zero => simp [listSwap]
      | succ m =>
        have hm : m < xs.length := by simpa using hj
        simpa [listSwap] using getD_cons_set_perm x xs m hm
    | succ n =>
      cases j with
      | zero =>
        have hn : n < xs.length := by simpa using hi
        simpa [listSwap] using getD_cons_set_perm x xs n hn
      | succ m =>
        have hn : n < xs.length := by simpa using hi
        have hm : m < xs.length := by simpa using hj
        simpa [listSwap] using (ih n m hn hm).cons x

/-- The whole Fisher–Yates loop permutes the value array whenever the starting
C index is in range. -/
theorem fisherYates_perm :
    ∀ (n : Nat) (vals rng : List Nat), n < vals.length →
      ((fisherYates n vals rng).1).Perm vals := by
  intro n
  induction n with
  | zero => intro vals rng _; exact List.Perm.refl _
  | succ k ih =>
    intro vals rng hn
    have hj : rng.headD 0 % (k + 2) < vals.length :=
      lt_of_le_of_lt (Nat.le_of_lt_succ (Nat.mod_lt _ (Nat.succ_pos _))) hn
    have hswap : (listSwap vals (k + 1) (rng.headD 0 % (k + 2))).Perm vals :=
      listSwap_perm vals _ _ hn hj
    have hk : k < (listSwap vals (k + 1) (rng.headD 0 % (k + 2))).length := by
      rw [hswap.length_eq]; exact Nat.lt_of_succ_lt hn
    exact (ih _ rng.tail hk).trans hswap

/-- Function `randomize_stack` permutes the stack values for every stack and
every random stream. -/
theorem randomize_stack_perm (stack rng : List Nat) :
    ((randomize_stack stack rng).1).Perm stack := by
  rw [randomize_stack]
  split
  · exact List.Perm.refl _
  · next h =>
    have hpos : 0 < stack.length := Nat.pos_of_ne_zero h
    exact fisherYates_perm _ stack rng (by omega)

/-- Setting a visited flag to true never turns another flag off. -/
theorem getD_set_true (l : List Bool) (j k : Nat) (h : l.getD k false = true) :
    (l.set j true).getD k false = true := by
  by_cases hjk : k = j
  · subst hjk
    by_cases hk : k < l.length
    · simp [List.getD_eq_getElem?_getD, List.getElem?_set_self', hk,
        List.getElem?_eq_getElem hk]
    · rw [List.set_eq_of_length_le (Nat.le_of_not_lt hk)]
      exact h
  · rwa [List.getD_eq_getElem?_getD, List.getElem?_set_ne (fun hh => hjk hh.symm),
      ← List.getD_eq_getElem?_getD]

/-- Setting an in-range visited flag makes it read back true. -/
theorem getD_set_true_self (l : List Bool) (j : Nat) (h : j < l.length) :
    (l.set j true).getD j false = true := by
  simp [List.getD_eq_getElem?_getD, List.getElem?_set_self', h, List.getElem?_eq_getElem h]

/-- A step that keeps running never clears any visited flag. -/
theorem step_visited_mono (commands : List Char) (m m' : MachineState)
    (h : execute_code_step commands m = .running m') (k : Nat)
    (hk : m.visited.getD k false = true) : m'.visited.getD k false = true := by
  rw [execute_code_step] at h
  split at h
  · simp at h
  · simp at h
  · split at h
    · simp at h
    · split at h
      · simp at h
      · injection h with h'
        subst h'
        exact getD_set_true m.visited m.curChunk k hk

/-- A step that keeps running records the executed chunk as visited. -/
theorem step_running_visited (commands : List Char) (m m' : MachineState)
    (h : execute_code_step commands m = .running m')
    (hlt : m.curChunk < m.visited.length) :
    m'.visited.getD m.curChunk false = true := by
  rw [execute_code_step] at h
  split at h
  · simp at h
  · simp at h
  · split at h
    · simp at h
    · split at h
      · simp at h
      · injection h with h'
        subst h'
        exact getD_set_true_self m.visited m.curChunk hlt

/-- Iterated steps never clear a visited flag. -/
theorem stepN_visited_mono (commands : List Char) :
    ∀ (n : Nat) (m m'' : MachineState),
      stepN commands n (.running m) = .running m'' → ∀ k,
      m.visited.getD k false = true → m''.visited.getD k false = true := by
  intro n
  induction n with
  | zero => intro m m'' h k hk; injection h with h'; subst h'; exact hk
  | succ p ih =>
    intro m m'' h k hk
    rw [stepN] at h
    cases hstep : execute_code_step commands m with
    | running m2 =>
      rw [hstep] at h
      exact ih m2 m'' h k (step_visited_mono commands m m2 hstep k hk)
    | halted m2 =>
      rw [hstep] at h
      have hfix : stepN commands p (ExecResult.halted m2) = ExecResult.halted m2 := by
        cases p <;> rfl
      rw [hfix] at h
      exact absurd h (by simp)
    | failed msg m2 =>
      rw [hstep] at h
      have hfix : stepN commands p (ExecResult.failed msg m2) = ExecResult.failed msg m2 := by
        cases p <;> rfl
      rw [hfix] at h
      exact absurd h (by simp)

/-- Chunk execution only ever dispatches slot indices below 5: two chunks that
agree on positions 0..4 execute identically from any in-range configuration. -/
theorem execFrom_agree :
    ∀ (fuel : Nat), ∀ (i : Nat) (c c' : List Char) (v : Bool) (s : VMState),
      fuel + i ≤ 5 → (∀ j, j < 5 → c.getD j ' ' = c'.getD j ' ') →
      execFrom c v fuel i s = execFrom c' v fuel i s := by
  intro fuel
  induction fuel using Nat.strong_induction_on with
  | _ fuel ih =>
    intro i c c' v s hle hag
    cases fuel with
    | zero => rfl
    | succ f =>
      rw [execFrom, execFrom, hag i (by omega)]
      cases hd : dispatch (c'.getD i ' ') v s with
      | cont s2 => exact ih f (by omega) (i + 1) c c' v s2 (by omega) hag
      | skip s2 =>
        cases f with
        | zero => rfl
        | succ f2 => exact ih f2 (by omega) (i + 2) c c' v s2 (by omega) hag
      | done s2 => rfl
      | halt s2 => rfl
      | err msg s2 => rfl

/-- On any non-empty stack, `send_top_to_bottom` moves the head to the back. -/
theorem send_top_to_bottom_cons (a : Nat) (rest : List Nat) :
    send_top_to_bottom (a :: rest) = some (rest ++ [a]) := by
  cases rest <;> rfl

/-- Iterating `send_top_to_bottom` computes `List.rotate`. -/
theorem rotIter_eq_rotate :
    ∀ (n : Nat) (l : List Nat), l ≠ [] → rotIter n l = some (l.rotate n) := by
  intro n
  induction n with
  | zero => intro l _; simp [rotIter]
  | succ k ih =>
    intro l hl
    cases l with
    | nil => exact absurd rfl hl
    | cons a rest =>
      rw [rotIter, send_top_to_bottom_cons, Option.some_bind,
        ih (rest ++ [a]) (by simp), List.rotate_cons_succ]

/-- Reading any position of an all-false visited array yields false. -/
theorem replicate_getD_false (n k : Nat) :
    (List.replicate n false).getD k false = false := by
  rw [List.getD_eq_getElem?_getD, List.getElem?_replicate]
  split <;> rfl

/-- C1: with the captured visited flag false, opcode 8 advances the slot index
one extra position (the next slot is not executed) and opcode C does not skip;
with the flag true, opcode C skips and opcode 8 does not; and after a chunk
execution completes normally and control continues, the chunk's visited flag
reads true in the resulting state and in every later still-running state. -/
theorem c1_skip_opcodes_and_visited_flag :
    (∀ (chunk : List Char) (i fuel : Nat) (s : VMState), chunk.getD i ' ' = '8' →
      execFrom chunk false (fuel + 2) i s = execFrom chunk false fuel (i + 2) s
      ∧ execFrom chunk true (fuel + 1) i s = execFrom chunk true fuel (i + 1) s)
    ∧ (∀ (chunk : List Char) (i fuel : Nat) (s : VMState), chunk.getD i ' ' = 'C' →
      execFrom chunk true (fuel + 2) i s = execFrom chunk true fuel (i + 2) s
      ∧ execFrom chunk false (fuel + 1) i s = execFrom chunk false fuel (i + 1) s)
    ∧ (∀ (commands : List Char) (m m' : MachineState),
      execute_code_step commands m = .running m' → m.curChunk < m.visited.length →
      m'.visited.getD m.curChunk false = true
      ∧ ∀ (n : Nat) (m2 : MachineState), stepN commands n (.running m') = .running m2 →
        m2.visited.getD m.curChunk false = true) := by
  refine ⟨?_, ?_, ?_⟩
  · intro chunk i fuel s h
    constructor
    · rw [execFrom, h]; rfl
    · rw [execFrom, h]; rfl
  · intro chunk i fuel s h
    constructor
    · rw [execFrom, h]; rfl
    · rw [execFrom, h]; rfl
  · intro commands m m' hrun hlt
    have hflag := step_running_visited commands m m' hrun hlt
    exact ⟨hflag, fun n m2 hn => stepN_visited_mono commands n m' m2 hn m.curChunk hflag⟩

/-- Witness for C1 at concrete inputs: a chunk starting with 8 (unvisited)
skips slot 1, a chunk starting with C (visited) skips slot 1, and after one
step of the one-chunk program AAAAA the visited flag of chunk 0 reads true. -/
theorem c1_witness :
    (execFrom ['8', '1', 'A', 'A', 'A'] false 5 0 ⟨[0], [], [], []⟩
      = execFrom ['8', '1', 'A', 'A', 'A'] false 3 2 ⟨[0], [], [], []⟩)
    ∧ (execFrom ['C', '1', 'A', 'A', 'A'] true 5 0 ⟨[0], [], [], []⟩
      = execFrom ['C', '1', 'A', 'A', 'A'] true 3 2 ⟨[0], [], [], []⟩)
    ∧ (⟨[0], [], [], [], [true], 0⟩ : MachineState).visited.getD 0 false = true :=
  ⟨(c1_skip_opcodes_and_visited_flag.1 ['8', '1', 'A', 'A', 'A'] 0 3 ⟨[0], [], [], []⟩ rfl).1,
   (c1_skip_opcodes_and_visited_flag.2.1 ['C', '1', 'A', 'A', 'A'] 0 3 ⟨[0], [], [], []⟩ rfl).1,
   (c1_skip_opcodes_and_visited_flag.2.2 ['A', 'A', 'A', 'A', 'A'] (initMachine 1 [] [])
      ⟨[0], [], [], [], [true], 0⟩ rfl (by decide)).1⟩

/-- C2: the claim states that a file with zero non-whitespace characters is
rejected at load time.  The code's only length check is
`cur_cmd % COMMANDS_PER_CHUNK != 0`, which 0 passes, so `read_xrf_file`
accepts the empty file and returns a zero-chunk code store; `execute_code`
then runs chunk 0 of a NULL command buffer (undefined behavior in C).  This
theorem evaluates the loader at the failing input. -/
theorem c2_empty_program_load_succeeds : read_xrf_file [] = .ok ([], []) := rfl

/-- C3: when a chunk completes normally with a non-empty stack, the control
loop fails fatally naming exactly the top value if it is at least the chunk
count, and otherwise continues running at the chunk the top value names. -/
theorem c3_out_of_range_jump_fatal (commands : List Char) (m : MachineState)
    (s : VMState) (v : Nat) (rest : List Nat)
    (hok : execute_chunk (getChunk commands m.curChunk) (m.visited.getD m.curChunk false)
      ⟨m.stack, m.inp, m.out, m.rng⟩ = .ok s)
    (hstk : s.stack = v :: rest) :
    (v ≥ commands.length / 5 →
      execute_code_step commands m =
        .failed ("Error! Cannot go to nonexistent chunk " ++ toString v ++ "!")
          ⟨v :: rest, s.inp, s.out, s.rng, m.visited.set m.curChunk true, m.curChunk⟩)
    ∧ (v < commands.length / 5 →
      execute_code_step commands m =
        .running ⟨v :: rest, s.inp, s.out, s.rng, m.visited.set m.curChunk true, v⟩) := by
  constructor
  · intro hv
    rw [execute_code_step]
    simp only [hok, hstk]
    rw [if_pos hv]
  · intro hv
    rw [execute_code_step]
    simp only [hok, hstk]
    rw [if_neg (Nat.not_le_of_lt hv)]

/-- Witness for C3: the one-chunk program 5555A leaves top value 4, which is
at least the chunk count 1, so the step fails naming chunk 4. -/
theorem c3_witness :
    execute_code_step ['5', '5', '5', '5', 'A'] (initMachine 1 [] [])
      = .failed ("Error! Cannot go to nonexistent chunk " ++ toString 4 ++ "!")
          ⟨[4], [], [], [], [true], 0⟩ :=
  (c3_out_of_range_jump_fatal ['5', '5', '5', '5', 'A'] (initMachine 1 [] [])
    ⟨[4], [], [], []⟩ 4 [] rfl rfl).1 (by decide)

/-- C4: opcode D's `randomize_stack` preserves the multiset of stack values
and the stack size for every starting stack and every random stream, and is a
no-op on the empty stack. -/
theorem c4_randomize_stack_preserves_multiset (stack rng : List Nat) :
    ((randomize_stack stack rng).1 : Multiset Nat) = (stack : Multiset Nat)
    ∧ (randomize_stack stack rng).1.length = stack.length
    ∧ randomize_stack [] rng = ([], rng) := by
  have hperm := randomize_stack_perm stack rng
  exact ⟨Multiset.coe_eq_coe.mpr hperm, hperm.length_eq, rfl⟩

/-- C5: opcode E pops the top value a and replaces the new top b with the
absolute difference of the two (always a natural number); on a stack with
fewer than 2 elements it fails with the fatal underflow error. -/
theorem c5_absdiff_opcode (chunk : List Char) (vis : Bool) (fuel i : Nat)
    (h : chunk.getD i ' ' = 'E') :
    (∀ (a b : Nat) (st inp out rng : List Nat),
      execFrom chunk vis (fuel + 1) i ⟨a :: b :: st, inp, out, rng⟩ =
        execFrom chunk vis fuel (i + 1) ⟨((b : Int) - (a : Int)).natAbs :: st, inp, out, rng⟩)
    ∧ (∀ (inp out rng : List Nat),
      execFrom chunk vis (fuel + 1) i ⟨[], inp, out, rng⟩ =
        .err "Error! Cannot get the difference of the top two values of an empty stack!"
          ⟨[], inp, out, rng⟩)
    ∧ (∀ (x : Nat) (inp out rng : List Nat),
      execFrom chunk vis (fuel + 1) i ⟨[x], inp, out, rng⟩ =
        .err "Error! Cannot get the difference of the top two values of a one-value stack!"
          ⟨[x], inp, out, rng⟩) := by
  refine ⟨?_, ?_, ?_⟩
  · intro a b st inp out rng
    have harith : ((b : Int) - (a : Int)).natAbs = (if a ≤ b then b - a else a - b) := by
      split <;> omega
    rw [execFrom, h, harith]
    rfl
  · intro inp out rng
    rw [execFrom, h]
    rfl
  · intro x inp out rng
    rw [execFrom, h]
    rfl

/-- Witness for C5: on stack top 3 over 10, opcode E leaves |10 - 3| = 7. -/
theorem c5_witness :
    execFrom ['E', 'A', 'A', 'A', 'A'] false 5 0 ⟨[3, 10], [], [], []⟩
      = execFrom ['E', 'A', 'A', 'A', 'A'] false 4 1
          ⟨[((10 : Int) - (3 : Int)).natAbs], [], [], []⟩ :=
  (c5_absdiff_opcode ['E', 'A', 'A', 'A', 'A'] false 4 0 rfl).1 3 10 [] [] [] []

/-- C6: opcode 6 subtracts 1 from the top value saturating at 0 (a top of 0
stays 0 and the result is a natural number, never below 0); on an empty stack
it fails with the fatal underflow error. -/
theorem c6_decrement_saturates (chunk : List Char) (vis : Bool) (fuel i : Nat)
    (h : chunk.getD i ' ' = '6') :
    (∀ (v : Nat) (st inp out rng : List Nat),
      execFrom chunk vis (fuel + 1) i ⟨v :: st, inp, out, rng⟩ =
        execFrom chunk vis fuel (i + 1) ⟨(v - 1) :: st, inp, out, rng⟩)
    ∧ (∀ (st inp out rng : List Nat),
      execFrom chunk vis (fuel + 1) i ⟨0 :: st, inp, out, rng⟩ =
        execFrom chunk vis fuel (i + 1) ⟨0 :: st, inp, out, rng⟩)
    ∧ (∀ (inp out rng : List Nat),
      execFrom chunk vis (fuel + 1) i ⟨[], inp, out, rng⟩ =
        .err "Error! Cannot decrement nonexistent value!" ⟨[], inp, out, rng⟩) := by
  refine ⟨?_, ?_, ?_⟩
  · intro v st inp out rng
    have harith : (v - 1 : Nat) = (if v > 0 then v - 1 else v) := by split <;> omega
    rw [execFrom, h, harith]
    rfl
  · intro st inp out rng
    rw [execFrom, h]
    rfl
  · intro inp out rng
    rw [execFrom, h]
    rfl

/-- Witness for C6: decrementing top value 5 yields 4. -/
theorem c6_witness :
    execFrom ['6', 'A', 'A', 'A', 'A'] false 5 0 ⟨[5], [], [], []⟩
      = execFrom ['6', 'A', 'A', 'A', 'A'] false 4 1 ⟨[4], [], [], []⟩ :=
  (c6_decrement_saturates ['6', 'A', 'A', 'A', 'A'] false 4 0 rfl).1 5 [] [] [] []

/-- C7: `send_top_to_bottom` moves the top below the others keeping their
relative order, applying it n times to a stack of size n restores the original
order, it is a no-op on a one-element stack, and it fails on an empty one. -/
theorem c7_rotate_top_to_bottom :
    (∀ (a : Nat) (rest : List Nat), send_top_to_bottom (a :: rest) = some (rest ++ [a]))
    ∧ (∀ l : List Nat, l ≠ [] → rotIter l.length l = some l)
    ∧ (∀ x : Nat, send_top_to_bottom [x] = some [x])
    ∧ send_top_to_bottom [] = none := by
  refine ⟨send_top_to_bottom_cons, ?_, fun x => rfl, rfl⟩
  intro l hl
  rw [rotIter_eq_rotate l.length l hl, List.rotate_length]

/-- Witness for C7: rotating the 3-element stack [1, 2, 3] three times restores
it. -/
theorem c7_witness : rotIter 3 [1, 2, 3] = some [1, 2, 3] :=
  c7_rotate_top_to_bottom.2.1 [1, 2, 3] (by decide)

/-- C8: the character F is accepted by the loader as a valid opcode character,
but the dispatcher has no case for it: executing an F slot leaves the stack,
the input, the output and the random stream unchanged and advances the slot
index by exactly 1, whatever the visited flag. -/
theorem c8_opcode_F_noop :
    isXrfChar 'F' = true
    ∧ (∀ (v : Bool) (s : VMState), dispatch 'F' v s = .cont s)
    ∧ (∀ (chunk : List Char) (vis : Bool) (fuel i : Nat) (s : VMState),
        chunk.getD i ' ' = 'F' →
        execFrom chunk vis (fuel + 1) i s = execFrom chunk vis fuel (i + 1) s) := by
  refine ⟨rfl, fun v s => rfl, ?_⟩
  intro chunk vis fuel i s h
  rw [execFrom, h]
  rfl

/-- Witness for C8: an F in slot 0 is skipped over without any state change. -/
theorem c8_witness :
    execFrom ['F', '5', 'A', 'A', 'A'] false 5 0 ⟨[0], [], [], []⟩
      = execFrom ['F', '5', 'A', 'A', 'A'] false 4 1 ⟨[0], [], [], []⟩ :=
  c8_opcode_F_noop.2.2 ['F', '5', 'A', 'A', 'A'] false 4 0 ⟨[0], [], [], []⟩ rfl

/-- C9: the dispatcher never reads a slot index above 4 (chunks agreeing on
positions 0..4 execute identically), and a skip opcode in the final slot 4
simply ends the chunk's execution normally. -/
theorem c9_no_dispatch_past_slot_4 :
    (∀ (c c' : List Char) (v : Bool) (s : VMState),
      (∀ j, j < 5 → c.getD j ' ' = c'.getD j ' ') →
      execute_chunk c v s = execute_chunk c' v s)
    ∧ (∀ (chunk : List Char) (s : VMState), chunk.getD 4 ' ' = '8' →
        execFrom chunk false 1 4 s = .ok s)
    ∧ (∀ (chunk : List Char) (s : VMState), chunk.getD 4 ' ' = 'C' →
        execFrom chunk true 1 4 s = .ok s) := by
  refine ⟨?_, ?_, ?_⟩
  · intro c c' v s hag
    exact execFrom_agree 5 0 c c' v s (by omega) hag
  · intro chunk s h
    rw [execFrom, h]
    rfl
  · intro chunk s h
    rw [execFrom, h]
    rfl

/-- Witness for C9: appending a 6th symbol to a chunk does not change its
execution. -/
theorem c9_witness :
    execute_chunk ['5', 'A', 'B', 'C', 'D'] false ⟨[0], [], [], []⟩
      = execute_chunk ['5', 'A', 'B', 'C', 'D', '9'] false ⟨[0], [], [], []⟩ :=
  c9_no_dispatch_past_slot_4.1 ['5', 'A', 'B', 'C', 'D'] ['5', 'A', 'B', 'C', 'D', '9'] false
    ⟨[0], [], [], []⟩ (by decide)

/-- C10: the loader initializes every visited flag to false, and no step of
the control loop (nor any number of iterated steps) ever turns a true visited
flag back to false. -/
theorem c10_visited_flags_monotone :
    (∀ (input cmds : List Char) (vis : List Bool),
      read_xrf_file input = .ok (cmds, vis) → ∀ k, vis.getD k false = false)
    ∧ (∀ (commands : List Char) (m m' : MachineState),
      execute_code_step commands m = .running m' → ∀ k,
      m.visited.getD k false = true → m'.visited.getD k false = true)
    ∧ (∀ (commands : List Char) (n : Nat) (m m'' : MachineState),
      stepN commands n (.running m) = .running m'' → ∀ k,
      m.visited.getD k false = true → m''.visited.getD k false = true) := by
  refine ⟨?_, step_visited_mono, fun commands n m m'' h k hk =>
    stepN_visited_mono commands n m m'' h k hk⟩
  intro input cmds vis h k
  rw [read_xrf_file] at h
  split at h
  · simp at h
  · split at h
    · simp at h
    · injection h with h'
      injection h' with h1 h2
      subst h2
      exact replicate_getD_false _ k

/-- Witness for C10: loading the one-chunk program 55555 yields the visited
array [false], whose flag 0 reads false. -/
theorem c10_witness : ([false] : List Bool).getD 0 false = false :=
  c10_visited_flags_monotone.1 ['5', '5', '5', '5', '5'] ['5', '5', '5', '5', '5'] [false] rfl 0
